import Mathlib

/-!
Shallow embedding of the MASCLET framework analysis core
(`masclet_framework/tools.py` and `masclet_framework/tools_xyz.py`).

Modelling conventions:
* Python/numpy floats are modelled by exact rationals (`ℚ`); all the
  arithmetic appearing in the embedded functions (dyadic divisions,
  products, sums) is exact, so the rational model coincides with the
  float computation wherever the claims speak of exact identities.
* numpy 3-d arrays are modelled by `Arr3` (a shape together with a total
  data function); a bounds-checked read `Arr3.get` returns `none` where
  numpy would raise an `IndexError`.
* Python lists of per-patch arrays are Lean `List`s; in-range reads that
  the claims guard with explicit hypotheses are written with `getD`.
* The unbounded recursion of `find_absolute_grid_position` is embedded
  with explicit fuel: the outer `none` means the recursion did not
  terminate within the given fuel, `some (Except.error ())` means the
  Python code raised (IndexError / ValueError), and `some (Except.ok v)`
  is a normal return.
-/

/-- Rational-valued dense 3-d array: a shape `(n1, n2, n3)` together with the
cell values.  Models a numpy `float` array of that shape. -/
structure Arr3 where
  n1 : ℕ
  n2 : ℕ
  n3 : ℕ
  data : ℕ → ℕ → ℕ → ℚ

/-- Boolean-valued dense 3-d array, modelling a numpy `bool` array. -/
structure BArr3 where
  n1 : ℕ
  n2 : ℕ
  n3 : ℕ
  data : ℕ → ℕ → ℕ → Bool

/-- Empty array, used as the (never reached) default of guarded reads. -/
def Arr3.empty : Arr3 := ⟨0, 0, 0, fun _ _ _ => 0⟩

instance : Inhabited Arr3 := ⟨Arr3.empty⟩

/-- Empty boolean array. -/
def BArr3.empty : BArr3 := ⟨0, 0, 0, fun _ _ _ => false⟩

instance : Inhabited BArr3 := ⟨BArr3.empty⟩

/-- Bounds-checked read: `none` models a numpy `IndexError`. -/
def Arr3.get (a : Arr3) (i j k : ℕ) : Option ℚ :=
  if i < a.n1 ∧ j < a.n2 ∧ k < a.n3 then some (a.data i j k) else none

/-- Elementwise product of two arrays (numpy `a * b` for same-shaped arrays);
the shape is taken from the left operand. -/
def Arr3.mul (a b : Arr3) : Arr3 :=
  ⟨a.n1, a.n2, a.n3, fun i j k => a.data i j k * b.data i j k⟩

/-- Product of a float array with a bool array (numpy `a * m`): the masked-out
cells become exactly 0. -/
def Arr3.mulMask (a : Arr3) (m : BArr3) : Arr3 :=
  ⟨a.n1, a.n2, a.n3, fun i j k => if m.data i j k then a.data i j k else 0⟩

/-- Product of an array with a scalar. -/
def Arr3.smul (a : Arr3) (c : ℚ) : Arr3 :=
  ⟨a.n1, a.n2, a.n3, fun i j k => a.data i j k * c⟩

/-- Product of a bool array with a scalar (numpy `m * c`): `c` where the mask
holds, 0 elsewhere. -/
def BArr3.smul (m : BArr3) (c : ℚ) : Arr3 :=
  ⟨m.n1, m.n2, m.n3, fun i j k => if m.data i j k then c else 0⟩

/-- Elementwise xor of two bool arrays (numpy `a ^ b`); shape from the left
operand. -/
def BArr3.xor (a b : BArr3) : BArr3 :=
  ⟨a.n1, a.n2, a.n3, fun i j k => Bool.xor (a.data i j k) (b.data i j k)⟩

/-- All-false bool array of the shape of `a` (numpy
`zeros(patch.shape, dtype=bool)`). -/
def BArr3.zerosLike (a : Arr3) : BArr3 :=
  ⟨a.n1, a.n2, a.n3, fun _ _ _ => false⟩

/-- Sum of all entries of the array (numpy `a.sum()`). -/
def Arr3.sum (a : Arr3) : ℚ :=
  (((List.range a.n1).map fun i =>
    (((List.range a.n2).map fun j =>
      (((List.range a.n3).map fun k => a.data i j k)).sum)).sum)).sum

/-- Ternary zip, truncating at the shortest list, like Python's `zip` on three
sequences. -/
def zip3With (f : α → β → γ → δ) : List α → List β → List γ → List δ
  | a :: as, b :: bs, c :: cs => f a b c :: zip3With f as bs cs
  | _, _, _ => []

namespace tools

/-- Embedding of `tools.create_vector_levels`: the per-patch refinement level
vector, `[[0]] + [[i+1]*x for (i, x) in enumerate(npatch[1:])]` flattened. -/
def create_vector_levels (npatch : List ℕ) : List ℕ :=
  ([[0]] ++ (npatch.drop 1).enum.map fun (p : ℕ × ℕ) => List.replicate p.2 (p.1 + 1)).join

end tools

/-- Helper for reasoning about `create_vector_levels`: the flattened list of
level blocks built from `enumFrom s`. -/
def levJoin (s : ℕ) (xs : List ℕ) : List ℕ :=
  ((List.enumFrom s xs).map fun (p : ℕ × ℕ) => List.replicate p.2 (p.1 + 1)).join

theorem levJoin_nil (s : ℕ) : levJoin s [] = [] := rfl

theorem levJoin_cons (s x : ℕ) (xs : List ℕ) :
    levJoin s (x :: xs) = List.replicate x (s + 1) ++ levJoin (s + 1) xs := by
  simp [levJoin, List.enumFrom]

theorem create_vector_levels_eq (npatch : List ℕ) :
    tools.create_vector_levels npatch = 0 :: levJoin 0 (npatch.drop 1) := by
  rfl

theorem levJoin_length (xs : List ℕ) : ∀ s, (levJoin s xs).length = xs.sum := by
  induction xs with
  | nil => intro s; rfl
  | cons x xs ih => intro s; simp [levJoin_cons, ih]

theorem levJoin_lower (xs : List ℕ) :
    ∀ s, ∀ v ∈ levJoin s xs, s + 1 ≤ v := by
  induction xs with
  | nil => intro s v hv; simp [levJoin_nil] at hv
  | cons x xs ih =>
    intro s v hv
    rw [levJoin_cons, List.mem_append] at hv
    rcases hv with hv | hv
    · simp [List.eq_of_mem_replicate hv]
    · exact le_trans (Nat.le_succ _) (ih (s + 1) v hv)

theorem levJoin_pairwise (xs : List ℕ) :
    ∀ s, (levJoin s xs).Pairwise (· ≤ ·) := by
  induction xs with
  | nil => intro s; simp [levJoin_nil]
  | cons x xs ih =>
    intro s
    rw [levJoin_cons]
    refine List.pairwise_append.2 ⟨List.pairwise_replicate.2 (Or.inr (le_refl _)), ih (s + 1), ?_⟩
    · intro a ha b hb
      have := levJoin_lower xs (s + 1) b hb
      have := List.eq_of_mem_replicate ha
      omega

theorem levJoin_get (xs : List ℕ) :
    ∀ s b j, j < xs.getD b 0 →
      (levJoin s xs).get? ((xs.take b).sum + j) = some (s + b + 1) := by
  induction xs with
  | nil => intro s b j hj; simp at hj
  | cons x xs ih =>
    intro s b j hj
    rw [levJoin_cons]
    cases b with
    | zero =>
      simp only [List.getD, List.take_zero, List.sum_nil, Nat.zero_add]
      rw [List.get?_append (by simpa using hj)]
      simp only [List.getD_eq_getElem?_getD, List.getElem?_cons_zero,
        Option.getD_some] at hj
      rw [List.get?_eq_getElem?, List.getElem?_replicate]
      simp [hj]
    | succ b =>
      simp only [List.take_succ_cons, List.sum_cons]
      have hj2 : j < xs.getD b 0 := by simpa using hj
      have := ih (s + 1) b j hj2
      rw [List.get?_append_right (by simp [List.length_replicate]; omega)]
      simp only [List.length_replicate]
      have harith : x + (xs.take b).sum + j - x = (xs.take b).sum + j := by omega
      rw [harith, this]
      congr 1
      omega

theorem levJoin_get_inv (xs : List ℕ) :
    ∀ s i v, (levJoin s xs).get? i = some v →
      ∃ b j, j < xs.getD b 0 ∧ i = (xs.take b).sum + j ∧ v = s + b + 1 := by
  induction xs with
  | nil => intro s i v hv; simp [levJoin_nil] at hv
  | cons x xs ih =>
    intro s i v hv
    rw [levJoin_cons] at hv
    by_cases hi : i < x
    · rw [List.get?_append (by simpa using hi)] at hv
      rw [List.get?_eq_getElem?, List.getElem?_replicate] at hv
      simp only [hi, if_true, Option.some.injEq] at hv
      exact ⟨0, i, by simpa using hi, by simp, by omega⟩
    · rw [List.get?_append_right (by simp; omega)] at hv
      simp only [List.length_replicate] at hv
      obtain ⟨b, j, hj, hij, hvv⟩ := ih (s + 1) (i - x) v hv
      refine ⟨b + 1, j, by simpa using hj, ?_, by omega⟩
      simp only [List.take_succ_cons, List.sum_cons]
      omega

/-- Prefix sum `sum(npatch[0:k])` appearing in the Python index arithmetic. -/
def psum (npatch : List ℕ) (k : ℕ) : ℕ := (npatch.take k).sum

theorem psum_zero (npatch : List ℕ) : psum npatch 0 = 0 := rfl

theorem psum_succ (npatch : List ℕ) (k : ℕ) :
    psum npatch (k + 1) = psum npatch k + npatch.getD k 0 := by
  unfold psum
  rw [List.take_succ, List.sum_append]
  cases h : npatch.get? k with
  | none =>
    have : npatch.length ≤ k := List.get?_eq_none.1 h
    simp [List.getD_eq_getElem?_getD, List.getElem?_eq_none this,
      ← List.get?_eq_getElem?, h]
  | some v =>
    simp [List.getD_eq_getElem?_getD, ← List.get?_eq_getElem?, h]

theorem psum_mono (npatch : List ℕ) {a b : ℕ} (h : a ≤ b) :
    psum npatch a ≤ psum npatch b := by
  induction b with
  | zero => simp [Nat.le_zero.1 h]
  | succ b ih =>
    rcases Nat.lt_or_ge a (b + 1) with hb | hb
    · exact le_trans (ih (by omega)) (by rw [psum_succ]; omega)
    · have : a = b + 1 := by omega
      simp [this]

theorem psum_head (npatch : List ℕ) (l : ℕ) (hl : 1 ≤ l) :
    psum npatch l = npatch.getD 0 0 + ((npatch.drop 1).take (l - 1)).sum := by
  cases npatch with
  | nil =>
    simp [psum, List.take_nil]
  | cons x xs =>
    obtain ⟨m, rfl⟩ : ∃ m, l = m + 1 := ⟨l - 1, by omega⟩
    simp [psum, List.take_succ_cons]

namespace tools

/-- Embedding of `tools.find_absolute_grid_position`, with explicit fuel for
the unbounded Python recursion.  Result: `none` = the recursion did not finish
within `fuel`; `some (Except.error ())` = the Python code raised (the
`IndexError` from `create_vector_levels(npatch)[ipatch]` on line 56 or the
`ValueError` on line 66); `some (Except.ok v)` = normal return.  The Python
float divisions are exact dyadic divisions, modelled in `ℚ`; the exponent
`level - 1` is an integer (Python computes `2 ** (level - 1)` as a float when
`level = 0`), hence the `zpow`. -/
def find_absolute_grid_position (fuel : ℕ) (ipatch : ℕ) (npatch : List ℕ)
    (patchx patchy patchz : List ℤ) (pare : List ℕ) :
    Option (Except Unit (ℚ × ℚ × ℚ)) :=
  match fuel with
  | 0 => none
  | fuel + 1 =>
    match (create_vector_levels npatch).get? ipatch with
    | none => some (Except.error ())
    | some level =>
      if ipatch < patchx.length then
        if level = 1 then
          some (Except.ok ((patchx.getD ipatch 0 : ℚ), (patchy.getD ipatch 0 : ℚ),
            (patchz.getD ipatch 0 : ℚ)))
        else
          match find_absolute_grid_position fuel (pare.getD ipatch 0) npatch
              patchx patchy patchz pare with
          | none => none
          | some (Except.error e) => some (Except.error e)
          | some (Except.ok pv) =>
            some (Except.ok
              (((patchx.getD ipatch 0 : ℚ) - 1) / (2 : ℚ) ^ ((level : ℤ) - 1) + pv.1,
               ((patchy.getD ipatch 0 : ℚ) - 1) / (2 : ℚ) ^ ((level : ℤ) - 1) + pv.2.1,
               ((patchz.getD ipatch 0 : ℚ) - 1) / (2 : ℚ) ^ ((level : ℤ) - 1) + pv.2.2))
      else
        some (Except.error ())

end tools

theorem getD_of_get? {α : Type*} {l : List α} {i : ℕ} {v d : α}
    (h : l.get? i = some v) : l.getD i d = v := by
  simp [List.getD_eq_getElem?_getD, ← List.get?_eq_getElem?, h]

theorem get?_of_lt_getD {α : Type*} (l : List α) (i : ℕ) (d : α)
    (h : i < l.length) : l.get? i = some (l.getD i d) := by
  rw [List.get?_eq_getElem?, List.getElem?_eq_getElem h]
  simp [List.getD_eq_getElem?_getD, List.getElem?_eq_getElem h]

/-- C1: for a valid patch index whose level is 1,
`find_absolute_grid_position` returns `(patchx[ipatch], patchy[ipatch],
patchz[ipatch])` directly; for a valid index of level `l ≥ 2` it satisfies the
recursive halving identity: whenever the recursive call on the parent
`pare[ipatch]` returns `pv`, the result for `ipatch` is
`(patchx[ipatch]-1)/2^(l-1) + pv`, componentwise. -/
theorem C1_absolute_grid_position_recursion (fuel ipatch : ℕ) (npatch : List ℕ)
    (patchx patchy patchz : List ℤ) (pare : List ℕ)
    (hip : ipatch < (tools.create_vector_levels npatch).length)
    (hx : ipatch < patchx.length) :
    ((tools.create_vector_levels npatch).getD ipatch 0 = 1 →
      tools.find_absolute_grid_position (fuel + 1) ipatch npatch patchx patchy patchz pare
        = some (Except.ok ((patchx.getD ipatch 0 : ℚ), (patchy.getD ipatch 0 : ℚ),
            (patchz.getD ipatch 0 : ℚ)))) ∧
    (∀ l pv, (tools.create_vector_levels npatch).getD ipatch 0 = l → 2 ≤ l →
      tools.find_absolute_grid_position fuel (pare.getD ipatch 0) npatch
        patchx patchy patchz pare = some (Except.ok pv) →
      tools.find_absolute_grid_position (fuel + 1) ipatch npatch patchx patchy patchz pare
        = some (Except.ok
            (((patchx.getD ipatch 0 : ℚ) - 1) / (2 : ℚ) ^ ((l : ℤ) - 1) + pv.1,
             ((patchy.getD ipatch 0 : ℚ) - 1) / (2 : ℚ) ^ ((l : ℤ) - 1) + pv.2.1,
             ((patchz.getD ipatch 0 : ℚ) - 1) / (2 : ℚ) ^ ((l : ℤ) - 1) + pv.2.2))) := by
  have hget : (tools.create_vector_levels npatch).get? ipatch
      = some ((tools.create_vector_levels npatch).getD ipatch 0) :=
    get?_of_lt_getD _ _ _ hip
  constructor
  · intro h1
    rw [tools.find_absolute_grid_position, hget, h1]
    simp [hx]
  · intro l pv hl h2 hrec
    rw [tools.find_absolute_grid_position, hget, hl]
    have : ¬ (l = 1) := by omega
    simp only [hx, if_true, this, if_false, hrec]

theorem create_vector_levels_length (npatch : List ℕ) :
    (tools.create_vector_levels npatch).length = 1 + (npatch.drop 1).sum := by
  rw [create_vector_levels_eq]
  simp [levJoin_length]
  omega

theorem create_vector_levels_get_zero (npatch : List ℕ) :
    (tools.create_vector_levels npatch).get? 0 = some 0 := by
  rw [create_vector_levels_eq]; rfl

theorem create_vector_levels_eq_zero_iff (npatch : List ℕ) (ipatch : ℕ)
    (h : (tools.create_vector_levels npatch).get? ipatch = some 0) : ipatch = 0 := by
  rw [create_vector_levels_eq] at h
  cases ipatch with
  | zero => rfl
  | succ i =>
    exfalso
    rw [List.get?_cons_succ] at h
    have hmem : (0 : ℕ) ∈ levJoin 0 (npatch.drop 1) := List.get?_mem h
    have := levJoin_lower _ 0 0 hmem
    omega

theorem fagp_out_of_range (fuel ipatch : ℕ) (npatch : List ℕ)
    (patchx patchy patchz : List ℤ) (pare : List ℕ)
    (h : (tools.create_vector_levels npatch).length ≤ ipatch) :
    tools.find_absolute_grid_position (fuel + 1) ipatch npatch patchx patchy patchz pare
      = some (Except.error ()) := by
  rw [tools.find_absolute_grid_position, List.get?_eq_none.2 h]

theorem fagp_no_error (npatch : List ℕ) (patchx patchy patchz : List ℤ)
    (pare : List ℕ)
    (hx : patchx.length = (tools.create_vector_levels npatch).length)
    (hwf : ∀ ip, ip < (tools.create_vector_levels npatch).length →
      2 ≤ (tools.create_vector_levels npatch).getD ip 0 →
      pare.getD ip 0 < (tools.create_vector_levels npatch).length ∧
        (tools.create_vector_levels npatch).getD (pare.getD ip 0) 0 + 1
          = (tools.create_vector_levels npatch).getD ip 0)
    (hp0 : pare.getD 0 0 = 0) :
    ∀ fuel ipatch, ipatch < (tools.create_vector_levels npatch).length →
      tools.find_absolute_grid_position fuel ipatch npatch patchx patchy patchz pare
        ≠ some (Except.error ()) := by
  intro fuel
  induction fuel with
  | zero => intro ip _ hc; rw [tools.find_absolute_grid_position] at hc; exact Option.noConfusion hc
  | succ fuel ih =>
    intro ip hip hc
    have hget : (tools.create_vector_levels npatch).get? ip
        = some ((tools.create_vector_levels npatch).getD ip 0) :=
      get?_of_lt_getD _ _ _ hip
    rw [tools.find_absolute_grid_position, hget] at hc
    have hipx : ip < patchx.length := by omega
    dsimp only [] at hc
    rw [if_pos hipx] at hc
    by_cases h1 : (tools.create_vector_levels npatch).getD ip 0 = 1
    · rw [if_pos h1] at hc
      simp at hc
    · rw [if_neg h1] at hc
      by_cases h2 : 2 ≤ (tools.create_vector_levels npatch).getD ip 0
      · obtain ⟨hplt, _⟩ := hwf ip hip h2
        have := ih (pare.getD ip 0) hplt
        revert hc this
        cases tools.find_absolute_grid_position fuel (pare.getD ip 0) npatch
            patchx patchy patchz pare with
        | none => intro hc _; exact Option.noConfusion hc
        | some r =>
          cases r with
          | error e => intro hc h; exact h hc
          | ok pv => intro hc _; simp at hc
      · have h0 : (tools.create_vector_levels npatch).getD ip 0 = 0 := by omega
        have hip0 : ip = 0 := by
          apply create_vector_levels_eq_zero_iff npatch ip
          rw [hget, h0]
        subst hip0
        have hplt : (0 : ℕ) < (tools.create_vector_levels npatch).length := by
          rw [create_vector_levels_length]; omega
        have := ih (pare.getD 0 0) (by rw [hp0]; exact hplt)
        revert hc this
        cases tools.find_absolute_grid_position fuel (pare.getD 0 0) npatch
            patchx patchy patchz pare with
        | none => intro hc _; exact Option.noConfusion hc
        | some r =>
          cases r with
          | error e => intro hc h; exact h hc
          | ok pv => intro hc _; simp at hc

theorem fagp_terminates (npatch : List ℕ) (patchx patchy patchz : List ℤ)
    (pare : List ℕ)
    (hx : patchx.length = (tools.create_vector_levels npatch).length)
    (hwf : ∀ ip, ip < (tools.create_vector_levels npatch).length →
      2 ≤ (tools.create_vector_levels npatch).getD ip 0 →
      pare.getD ip 0 < (tools.create_vector_levels npatch).length ∧
        (tools.create_vector_levels npatch).getD (pare.getD ip 0) 0 + 1
          = (tools.create_vector_levels npatch).getD ip 0) :
    ∀ fuel ipatch, ipatch < (tools.create_vector_levels npatch).length →
      1 ≤ (tools.create_vector_levels npatch).getD ipatch 0 →
      (tools.create_vector_levels npatch).getD ipatch 0 ≤ fuel →
      ∃ v, tools.find_absolute_grid_position fuel ipatch npatch patchx patchy patchz pare
        = some (Except.ok v) := by
  intro fuel
  induction fuel with
  | zero => intro ip _ h1 h2; omega
  | succ fuel ih =>
    intro ip hip h1 h2
    have hget : (tools.create_vector_levels npatch).get? ip
        = some ((tools.create_vector_levels npatch).getD ip 0) :=
      get?_of_lt_getD _ _ _ hip
    have hipx : ip < patchx.length := by omega
    rw [tools.find_absolute_grid_position, hget]
    dsimp only []
    rw [if_pos hipx]
    by_cases hl1 : (tools.create_vector_levels npatch).getD ip 0 = 1
    · rw [if_pos hl1]
      exact ⟨_, rfl⟩
    · rw [if_neg hl1]
      have h2' : 2 ≤ (tools.create_vector_levels npatch).getD ip 0 := by omega
      obtain ⟨hplt, hpl⟩ := hwf ip hip h2'
      obtain ⟨pv, hpv⟩ := ih (pare.getD ip 0) hplt (by omega) (by omega)
      rw [hpv]
      exact ⟨_, rfl⟩

theorem fagp_base_loop (npatch : List ℕ) (patchx patchy patchz : List ℤ)
    (pare : List ℕ)
    (hx0 : 0 < patchx.length)
    (hp0 : pare.getD 0 0 = 0) :
    ∀ fuel, tools.find_absolute_grid_position fuel 0 npatch patchx patchy patchz pare
      = none := by
  intro fuel
  induction fuel with
  | zero => rw [tools.find_absolute_grid_position]
  | succ fuel ih =>
    rw [tools.find_absolute_grid_position, create_vector_levels_get_zero]
    dsimp only []
    rw [if_pos hx0]
    have h01 : ¬ ((0 : ℕ) = 1) := by omega
    rw [if_neg h01, hp0, ih]

instance {ε α : Type*} [DecidableEq ε] [DecidableEq α] : DecidableEq (Except ε α) := fun a b =>
  match a, b with
  | .ok x, .ok y => if h : x = y then isTrue (by rw [h]) else isFalse (by simp [h])
  | .error x, .error y => if h : x = y then isTrue (by rw [h]) else isFalse (by simp [h])
  | .ok _, .error _ => isFalse (by simp)
  | .error _, .ok _ => isFalse (by simp)

/-- C7 (amended): for a hierarchy whose geometry arrays span the whole level
vector, whose parent links are well formed (each level `≥ 2` patch has an
in-range parent one level coarser) and whose base patch is its own parent
(`pare[0] = 0`, the stated data convention), `find_absolute_grid_position`
raises an out-of-range error exactly for `ipatch ≥ total patch count`; it
never raises for an in-range `ipatch`; it returns normally for every in-range
`ipatch` of level `≥ 1` (with fuel at least the level); and for the base
patch `ipatch = 0` the recursion never terminates (the original claim's
"returns normally for every in-range ipatch" fails there). -/
theorem C7_fagp_error_handling (npatch : List ℕ) (patchx patchy patchz : List ℤ)
    (pare : List ℕ)
    (hx : patchx.length = (tools.create_vector_levels npatch).length)
    (hwf : ∀ ip, ip < (tools.create_vector_levels npatch).length →
      2 ≤ (tools.create_vector_levels npatch).getD ip 0 →
      pare.getD ip 0 < (tools.create_vector_levels npatch).length ∧
        (tools.create_vector_levels npatch).getD (pare.getD ip 0) 0 + 1
          = (tools.create_vector_levels npatch).getD ip 0)
    (hp0 : pare.getD 0 0 = 0) :
    (∀ fuel ipatch, (tools.create_vector_levels npatch).length ≤ ipatch →
      tools.find_absolute_grid_position (fuel + 1) ipatch npatch patchx patchy patchz pare
        = some (Except.error ())) ∧
    (∀ fuel ipatch, ipatch < (tools.create_vector_levels npatch).length →
      tools.find_absolute_grid_position fuel ipatch npatch patchx patchy patchz pare
        ≠ some (Except.error ())) ∧
    (∀ ipatch, ipatch < (tools.create_vector_levels npatch).length →
      1 ≤ (tools.create_vector_levels npatch).getD ipatch 0 →
      ∀ fuel, (tools.create_vector_levels npatch).getD ipatch 0 ≤ fuel →
      ∃ v, tools.find_absolute_grid_position fuel ipatch npatch patchx patchy patchz pare
        = some (Except.ok v)) ∧
    (∀ fuel, tools.find_absolute_grid_position fuel 0 npatch patchx patchy patchz pare
      = none) := by
  refine ⟨?_, ?_, ?_, ?_⟩
  · intro fuel ipatch h
    exact fagp_out_of_range fuel ipatch npatch patchx patchy patchz pare h
  · intro fuel ipatch h
    exact fagp_no_error npatch patchx patchy patchz pare hx hwf hp0 fuel ipatch h
  · intro ipatch h h1 fuel h2
    exact fagp_terminates npatch patchx patchy patchz pare hx hwf fuel ipatch h h1 h2
  · have hx0 : 0 < patchx.length := by
      rw [hx, create_vector_levels_length]; omega
    exact fagp_base_loop npatch patchx patchy patchz pare hx0 hp0

/-- C7 counterexample: in the two-patch hierarchy `npatch = [0,1]`,
`patchx = patchy = patchz = [0,5]`, `pare = [0,0]`, the base patch index
`ipatch = 0` is in range (total patch count 2), yet the call never returns:
for every amount of fuel the recursion is still running (in Python it
recurses on `pare[0] = 0` forever), refuting "returns normally for every
in-range ipatch". -/
theorem C7_counterexample :
    ¬ ∃ fuel v, tools.find_absolute_grid_position fuel 0 [0, 1]
      [0, 5] [0, 5] [0, 5] [0, 0] = some v := by
  rintro ⟨fuel, v, hv⟩
  rw [fagp_base_loop [0, 1] [0, 5] [0, 5] [0, 5] [0, 0] (by decide) (by decide) fuel] at hv
  exact Option.noConfusion hv

/-- C7 witness: the amended statement applied to the concrete hierarchy
`npatch = [0,1,1]`, `patchx/y/z = [0,5,3]`, `pare = [0,0,1]`. -/
theorem C7_fagp_error_handling_witness :
    (tools.find_absolute_grid_position 1 7 [0, 1, 1] [0, 5, 3] [0, 5, 3] [0, 5, 3] [0, 0, 1]
      = some (Except.error ())) ∧
    (∃ v, tools.find_absolute_grid_position 2 2 [0, 1, 1] [0, 5, 3] [0, 5, 3] [0, 5, 3] [0, 0, 1]
      = some (Except.ok v)) ∧
    (tools.find_absolute_grid_position 5 0 [0, 1, 1] [0, 5, 3] [0, 5, 3] [0, 5, 3] [0, 0, 1]
      = none) := by
  have h := C7_fagp_error_handling [0, 1, 1] [0, 5, 3] [0, 5, 3] [0, 5, 3] [0, 0, 1]
    (by decide) (by decide) (by decide)
  exact ⟨h.1 0 7 (by decide), h.2.2.1 2 (by decide) (by decide) 2 (by decide), h.2.2.2 5⟩

/-- C1 witness: the recursion equations applied to the concrete hierarchy
`npatch = [0,1,1]`, `patchx/y/z = [0,5,3]`, `pare = [0,0,1]`: the level-1
patch 1 returns its own coordinates, and patch 2 (level 2) combines
`(3-1)/2^1` with the parent's result `(5,5,5)`. -/
theorem C1_absolute_grid_position_recursion_witness :
    (tools.find_absolute_grid_position 1 1 [0, 1, 1] [0, 5, 3] [0, 5, 3] [0, 5, 3] [0, 0, 1]
      = some (Except.ok ((5 : ℚ), (5 : ℚ), (5 : ℚ)))) ∧
    (tools.find_absolute_grid_position 2 2 [0, 1, 1] [0, 5, 3] [0, 5, 3] [0, 5, 3] [0, 0, 1]
      = some (Except.ok (((3 : ℚ) - 1) / (2 : ℚ) ^ ((2 : ℤ) - 1) + 5,
          ((3 : ℚ) - 1) / (2 : ℚ) ^ ((2 : ℤ) - 1) + 5,
          ((3 : ℚ) - 1) / (2 : ℚ) ^ ((2 : ℤ) - 1) + 5))) := by
  have h1 := (C1_absolute_grid_position_recursion 0 1 [0, 1, 1]
    [0, 5, 3] [0, 5, 3] [0, 5, 3] [0, 0, 1] (by decide) (by decide)).1 (by decide)
  have hbase : tools.find_absolute_grid_position 1 1 [0, 1, 1]
      [0, 5, 3] [0, 5, 3] [0, 5, 3] [0, 0, 1]
      = some (Except.ok ((5 : ℚ), (5 : ℚ), (5 : ℚ))) := by
    rw [h1]; norm_num
  have h2 := (C1_absolute_grid_position_recursion 1 2 [0, 1, 1]
    [0, 5, 3] [0, 5, 3] [0, 5, 3] [0, 0, 1] (by decide) (by decide)).2
    2 ((5 : ℚ), (5 : ℚ), (5 : ℚ)) (by decide) (by decide) hbase
  refine ⟨hbase, ?_⟩
  rw [h2]
  norm_num

theorem getD_drop_one (np : List ℕ) (l : ℕ) (hl : 1 ≤ l) :
    (np.drop 1).getD (l - 1) 0 = np.getD l 0 := by
  cases np with
  | nil => simp
  | cons x xs =>
    obtain ⟨m, rfl⟩ : ∃ m, l = m + 1 := ⟨l - 1, by omega⟩
    simp

/-- C4 (amended): for every `npatch`, `create_vector_levels npatch` has
length `1 + sum(npatch[1:])` (the original "length = sum(npatch)" holds only
when `npatch[0] = 1`, while the code ignores `npatch[0]`), its first entry is
0, its entries are non-decreasing, and for each level `l ≥ 1` the block of
`npatch[l]` entries starting at position `1 + sum(npatch[1:l])` all equal
`l`. -/
theorem C4_create_vector_levels_shape (np : List ℕ) :
    (tools.create_vector_levels np).length = 1 + (np.drop 1).sum ∧
    (tools.create_vector_levels np).get? 0 = some 0 ∧
    (tools.create_vector_levels np).Pairwise (· ≤ ·) ∧
    (∀ l j, 1 ≤ l → j < np.getD l 0 →
      (tools.create_vector_levels np).get? (1 + ((np.drop 1).take (l - 1)).sum + j)
        = some l) := by
  refine ⟨create_vector_levels_length np, create_vector_levels_get_zero np, ?_, ?_⟩
  · rw [create_vector_levels_eq]
    exact List.Pairwise.cons (fun b _ => Nat.zero_le b) (levJoin_pairwise _ 0)
  · intro l j hl hj
    rw [create_vector_levels_eq]
    have hidx : 1 + ((np.drop 1).take (l - 1)).sum + j
        = (((np.drop 1).take (l - 1)).sum + j) + 1 := by omega
    rw [hidx, List.get?_cons_succ]
    have hj2 : j < (np.drop 1).getD (l - 1) 0 := by
      rw [getD_drop_one np l hl]; exact hj
    have := levJoin_get (np.drop 1) 0 (l - 1) j hj2
    rw [this]
    congr 1
    omega

/-- C4 counterexample: for `npatch = [0,1]` the level vector is `[0,1]`, of
length 2, while `sum(npatch) = 1`: the claimed "length equals sum(npatch)"
fails (the code ignores `npatch[0]` and always prepends the single base
entry). -/
theorem C4_counterexample :
    ¬ ((tools.create_vector_levels [0, 1]).length = List.sum [0, 1]) := by
  decide

/-- C4 witness: the block description applied at `npatch = [0,2,1]`,
level 2, offset 0: the entry at position `1 + 2 + 0` is 2. -/
theorem C4_create_vector_levels_shape_witness :
    (tools.create_vector_levels [0, 2, 1]).get? (1 + 2 + 0) = some 2 := by
  have h := (C4_create_vector_levels_shape [0, 2, 1]).2.2.2 2 0 (by decide) (by decide)
  simpa using h

/-- Maximum refinement level, `levels.max()` in the Python code (the level
vector always contains 0, so the fold from 0 is the numpy max). -/
def maxLevel (np : List ℕ) : ℕ := (tools.create_vector_levels np).foldl max 0

namespace tools_xyz

/-- Embedding of `tools_xyz.clean_field`: the base patch is multiplied by its
refinement mask only; patches of levels `1 .. up_to_level-1` (after clamping
`up_to_level` to the maximum level) by both masks; patches of the last
processed level by the overlap mask only.  Python's
`range(sum(npatch[0:level]) + 1, sum(npatch[0:level+1]) + 1)` is
`List.range' (psum npatch level + 1) (psum npatch (level+1) - psum npatch level)`
(the truncated subtraction matches Python's empty range when the bounds
cross). -/
def clean_field (field cr0amr solapst : List Arr3) (npatch : List ℕ)
    (up_to_level : ℕ) : List Arr3 :=
  let utl := min up_to_level (maxLevel npatch)
  [(field.getD 0 Arr3.empty).mul (cr0amr.getD 0 Arr3.empty)]
  ++ ((List.range' 1 (utl - 1)).flatMap fun level =>
      (List.range' (psum npatch level + 1)
          (psum npatch (level + 1) - psum npatch level)).map
        fun ipatch => ((field.getD ipatch Arr3.empty).mul
          (cr0amr.getD ipatch Arr3.empty)).mul (solapst.getD ipatch Arr3.empty))
  ++ ((List.range' (psum npatch utl + 1)
        (psum npatch (utl + 1) - psum npatch utl)).map
      fun ipatch => (field.getD ipatch Arr3.empty).mul (solapst.getD ipatch Arr3.empty))

end tools_xyz

theorem blocks_collapse {α : Type*} (np : List ℕ) (g : ℕ → α) :
    ∀ n a, ((List.range' a n).flatMap fun l =>
        (List.range' (psum np l + 1) (psum np (l + 1) - psum np l)).map g)
      = (List.range' (psum np a + 1) (psum np (a + n) - psum np a)).map g := by
  intro n
  induction n with
  | zero => intro a; simp
  | succ n ih =>
    intro a
    rw [List.range'_succ, List.flatMap_cons, ih (a + 1)]
    have h1 : psum np a ≤ psum np (a + 1) := psum_mono np (by omega)
    have h2 : psum np (a + 1) ≤ psum np (a + 1 + n) := psum_mono np (by omega)
    have hs : psum np a + 1 + (psum np (a + 1) - psum np a) = psum np (a + 1) + 1 := by
      omega
    rw [← List.map_append, ← hs, List.range'_append_1]
    have h3 : a + (n + 1) = a + 1 + n := by omega
    rw [h3]
    congr 2
    omega

theorem psum_one_eq_zero (np : List ℕ) (h0 : np.getD 0 0 = 0) : psum np 1 = 0 := by
  rw [show (1 : ℕ) = 0 + 1 from rfl, psum_succ, psum_zero, h0]

theorem clean_field_structure (field cr0amr solapst : List Arr3) (np : List ℕ)
    (u : ℕ) (h0 : np.getD 0 0 = 0) :
    tools_xyz.clean_field field cr0amr solapst np u
      = (field.getD 0 Arr3.empty).mul (cr0amr.getD 0 Arr3.empty)
        :: (((List.range' 1 (psum np (min u (maxLevel np)))).map
            fun ipatch => ((field.getD ipatch Arr3.empty).mul
              (cr0amr.getD ipatch Arr3.empty)).mul (solapst.getD ipatch Arr3.empty))
          ++ ((List.range' (psum np (min u (maxLevel np)) + 1)
              (psum np (min u (maxLevel np) + 1) - psum np (min u (maxLevel np)))).map
            fun ipatch => (field.getD ipatch Arr3.empty).mul
              (solapst.getD ipatch Arr3.empty))) := by
  rw [tools_xyz.clean_field]
  rw [blocks_collapse np _ (min u (maxLevel np) - 1) 1]
  rw [psum_one_eq_zero np h0]
  rcases Nat.eq_zero_or_pos (min u (maxLevel np)) with h | h
  · rw [h]
    norm_num
    rw [psum_one_eq_zero np h0, psum_zero]
  · have : 1 + (min u (maxLevel np) - 1) = min u (maxLevel np) := by omega
    rw [this]
    simp

theorem map_range'_get? {α : Type*} (g : ℕ → α) (s n i : ℕ) (h : i < n) :
    ((List.range' s n).map g).get? i = some (g (s + i)) := by
  rw [List.get?_map, List.get?_eq_getElem?, List.getElem?_range' s 1 h]
  simp

theorem clean_field_length (field cr0amr solapst : List Arr3) (np : List ℕ)
    (u : ℕ) (h0 : np.getD 0 0 = 0) :
    (tools_xyz.clean_field field cr0amr solapst np u).length
      = 1 + psum np (min u (maxLevel np) + 1) := by
  rw [clean_field_structure field cr0amr solapst np u h0]
  have := psum_mono np (show min u (maxLevel np) ≤ min u (maxLevel np) + 1 by omega)
  simp only [List.length_cons, List.length_append, List.length_map, List.length_range']
  omega

theorem clean_field_get_zero (field cr0amr solapst : List Arr3) (np : List ℕ)
    (u : ℕ) (h0 : np.getD 0 0 = 0) :
    (tools_xyz.clean_field field cr0amr solapst np u).get? 0
      = some ((field.getD 0 Arr3.empty).mul (cr0amr.getD 0 Arr3.empty)) := by
  rw [clean_field_structure field cr0amr solapst np u h0]
  rfl

theorem clean_field_get_mid (field cr0amr solapst : List Arr3) (np : List ℕ)
    (u ip : ℕ) (h0 : np.getD 0 0 = 0) (h1 : 1 ≤ ip)
    (h2 : ip ≤ psum np (min u (maxLevel np))) :
    (tools_xyz.clean_field field cr0amr solapst np u).get? ip
      = some (((field.getD ip Arr3.empty).mul
          (cr0amr.getD ip Arr3.empty)).mul (solapst.getD ip Arr3.empty)) := by
  rw [clean_field_structure field cr0amr solapst np u h0]
  obtain ⟨i, rfl⟩ : ∃ i, ip = i + 1 := ⟨ip - 1, by omega⟩
  rw [List.get?_cons_succ]
  rw [List.get?_append (by rw [List.length_map, List.length_range']; omega)]
  rw [map_range'_get? _ 1 _ i h2, Nat.add_comm 1 i]

theorem clean_field_get_last (field cr0amr solapst : List Arr3) (np : List ℕ)
    (u ip : ℕ) (h0 : np.getD 0 0 = 0)
    (h1 : psum np (min u (maxLevel np)) + 1 ≤ ip)
    (h2 : ip ≤ psum np (min u (maxLevel np) + 1)) :
    (tools_xyz.clean_field field cr0amr solapst np u).get? ip
      = some ((field.getD ip Arr3.empty).mul (solapst.getD ip Arr3.empty)) := by
  rw [clean_field_structure field cr0amr solapst np u h0]
  obtain ⟨i, rfl⟩ : ∃ i, ip = i + 1 := ⟨ip - 1, by omega⟩
  rw [List.get?_cons_succ]
  rw [List.get?_append_right (by rw [List.length_map, List.length_range']; omega)]
  simp only [List.length_map, List.length_range']
  rw [map_range'_get? _ (psum np (min u (maxLevel np)) + 1) _
    (i - psum np (min u (maxLevel np)))
    (Nat.sub_lt_sub_right (Nat.succ_le_succ_iff.mp h1) h2)]
  have harith : psum np (min u (maxLevel np)) + 1
      + (i - psum np (min u (maxLevel np))) = i + 1 := by
    have hle : psum np (min u (maxLevel np)) ≤ i := Nat.succ_le_succ_iff.mp h1
    omega
  rw [harith]

theorem level_block_of_get (np : List ℕ) (h0 : np.getD 0 0 = 0) (ip l : ℕ)
    (hl : (tools.create_vector_levels np).get? ip = some l) (h1 : 1 ≤ l) :
    psum np l + 1 ≤ ip ∧ ip ≤ psum np (l + 1) := by
  cases ip with
  | zero =>
    rw [create_vector_levels_get_zero] at hl
    simp at hl
    omega
  | succ i =>
    rw [create_vector_levels_eq, List.get?_cons_succ] at hl
    obtain ⟨b, j, hj, hij, hv⟩ := levJoin_get_inv (np.drop 1) 0 i l hl
    have hb : b = l - 1 := by omega
    subst hb
    have hgd : (np.drop 1).getD (l - 1) 0 = np.getD l 0 := getD_drop_one np l h1
    have hps : psum np l = ((np.drop 1).take (l - 1)).sum := by
      rw [psum_head np l h1, h0]
      omega
    have hps1 : psum np (l + 1) = psum np l + np.getD l 0 := psum_succ np l
    omega

/-- C2: with the hierarchy convention the code's index arithmetic encodes
(`npatch[0] = 0`, level vector of length `1 + sum(npatch[1:])`), `clean_field`
returns `field[0] * cr0amr[0]` for the base patch; `field * cr0amr * solapst`
for every patch whose level `l` satisfies `1 ≤ l < min(up_to_level,
max_level)`; and `field * solapst` (overlap-cleaned but not
refinement-cleaned) for every patch at exactly the clamped finest processed
level; and each product zeroes exactly the cells whose 0/1 mask entry is 0,
keeping the input value where the mask entry is 1. -/
theorem C2_clean_field_per_level (field cr0amr solapst : List Arr3)
    (np : List ℕ) (u : ℕ) (h0 : np.getD 0 0 = 0) :
    ((tools_xyz.clean_field field cr0amr solapst np u).get? 0
        = some ((field.getD 0 Arr3.empty).mul (cr0amr.getD 0 Arr3.empty))) ∧
    (∀ ip l, (tools.create_vector_levels np).get? ip = some l → 1 ≤ l →
      l < min u (maxLevel np) →
      (tools_xyz.clean_field field cr0amr solapst np u).get? ip
        = some (((field.getD ip Arr3.empty).mul
            (cr0amr.getD ip Arr3.empty)).mul (solapst.getD ip Arr3.empty))) ∧
    (∀ ip, (tools.create_vector_levels np).get? ip = some (min u (maxLevel np)) →
      1 ≤ min u (maxLevel np) →
      (tools_xyz.clean_field field cr0amr solapst np u).get? ip
        = some ((field.getD ip Arr3.empty).mul (solapst.getD ip Arr3.empty))) ∧
    (∀ (a m : Arr3) i j k,
      (m.data i j k = 0 → (a.mul m).data i j k = 0) ∧
      (m.data i j k = 1 → (a.mul m).data i j k = a.data i j k)) := by
  refine ⟨clean_field_get_zero field cr0amr solapst np u h0, ?_, ?_, ?_⟩
  · intro ip l hl h1 hlt
    obtain ⟨hlo, hhi⟩ := level_block_of_get np h0 ip l hl h1
    have hmono : psum np (l + 1) ≤ psum np (min u (maxLevel np)) :=
      psum_mono np (by omega)
    exact clean_field_get_mid field cr0amr solapst np u ip h0 (by omega) (by omega)
  · intro ip hl h1
    obtain ⟨hlo, hhi⟩ := level_block_of_get np h0 ip (min u (maxLevel np)) hl h1
    exact clean_field_get_last field cr0amr solapst np u ip h0 hlo hhi
  · intro a m i j k
    constructor
    · intro hm; simp [Arr3.mul, hm]
    · intro hm; simp [Arr3.mul, hm]

/-- Constant single-cell test array used by concrete witnesses. -/
def wArr (q : ℚ) : Arr3 := ⟨1, 1, 1, fun _ _ _ => q⟩

/-- C2 witness: the per-level description applied to the concrete hierarchy
`npatch = [0,1,1]` with `up_to_level = 2`: patch 1 (level 1) is cleaned with
both masks, patch 2 (level 2, the last processed level) with the overlap mask
only, and a masked product zeroes a cell with mask 0. -/
theorem C2_clean_field_per_level_witness :
    ((tools_xyz.clean_field [wArr 2, wArr 3, wArr 5] [wArr 1, wArr 0, wArr 1]
        [wArr 1, wArr 1, wArr 0] [0, 1, 1] 2).get? 1
      = some (((wArr 3).mul (wArr 0)).mul (wArr 1))) ∧
    ((tools_xyz.clean_field [wArr 2, wArr 3, wArr 5] [wArr 1, wArr 0, wArr 1]
        [wArr 1, wArr 1, wArr 0] [0, 1, 1] 2).get? 2
      = some ((wArr 5).mul (wArr 0))) ∧
    ((wArr 3).mul (wArr 0)).data 0 0 0 = 0 := by
  have h := C2_clean_field_per_level [wArr 2, wArr 3, wArr 5]
    [wArr 1, wArr 0, wArr 1] [wArr 1, wArr 1, wArr 0] [0, 1, 1] 2 (by decide)
  refine ⟨h.2.1 1 1 ?_ (by decide) ?_, h.2.2.1 2 ?_ ?_, (h.2.2.2 (wArr 3) (wArr 0) 0 0 0).1 rfl⟩
  · decide
  · decide
  · decide
  · decide

theorem le_foldl_max (l : List ℕ) :
    ∀ a : ℕ, (∀ v ∈ l, v ≤ l.foldl max a) ∧ a ≤ l.foldl max a := by
  induction l with
  | nil => intro a; exact ⟨by intro v hv; simp at hv, le_refl a⟩
  | cons x xs ih =>
    intro a
    rw [List.foldl_cons]
    obtain ⟨h1, h2⟩ := ih (max a x)
    refine ⟨?_, le_trans (le_max_left a x) h2⟩
    intro v hv
    rcases List.mem_cons.1 hv with rfl | hv
    · exact le_trans (le_max_right a v) h2
    · exact h1 v hv

theorem getD_pos_le_maxLevel (np : List ℕ) (l : ℕ) (h1 : 1 ≤ l)
    (hpos : 0 < np.getD l 0) : l ≤ maxLevel np := by
  have hj : (0 : ℕ) < (np.drop 1).getD (l - 1) 0 := by
    rw [getD_drop_one np l h1]; exact hpos
  have hget := levJoin_get (np.drop 1) 0 (l - 1) 0 hj
  have hmem : l ∈ levJoin 0 (np.drop 1) := by
    have : (0 : ℕ) + (l - 1) + 1 = l := by omega
    rw [this] at hget
    exact List.get?_mem hget
  have hmem2 : l ∈ tools.create_vector_levels np := by
    rw [create_vector_levels_eq]
    exact List.mem_cons_of_mem _ hmem
  exact (le_foldl_max (tools.create_vector_levels np) 0).1 l hmem2

theorem sum_eq_sum_take (l : List ℕ) :
    ∀ k, (∀ t, k ≤ t → l.getD t 0 = 0) → l.sum = (l.take k).sum := by
  induction l with
  | nil => intro k _; simp
  | cons x xs ih =>
    intro k hk
    cases k with
    | zero =>
      have hx : x = 0 := hk 0 (by omega)
      have hxs : xs.sum = (xs.take 0).sum := by
        apply ih 0
        intro t _
        exact hk (t + 1) (by omega)
      simp at hxs
      simp [hx, hxs]
    | succ k =>
      rw [List.take_succ_cons, List.sum_cons, List.sum_cons]
      rw [ih k (fun t ht => hk (t + 1) (by omega))]

theorem psum_maxLevel_total (np : List ℕ) (h0 : np.getD 0 0 = 0) :
    psum np (maxLevel np + 1) = (np.drop 1).sum := by
  have hsum : np.sum = (np.take (maxLevel np + 1)).sum := by
    apply sum_eq_sum_take
    intro t ht
    by_contra hne
    have hpos : 0 < np.getD t 0 := Nat.pos_of_ne_zero hne
    have h1 : 1 ≤ t := by
      rcases Nat.eq_zero_or_pos t with rfl | h
      · rw [h0] at hpos; omega
      · omega
    have := getD_pos_le_maxLevel np t h1 hpos
    omega
  have hsplit : np.sum = np.getD 0 0 + (np.drop 1).sum := by
    cases np with
    | nil => simp
    | cons x xs => simp
  rw [psum, ← hsum, hsplit, h0]
  omega

/-- C9 (amended): `clean_field` returns `1 + sum(npatch[1 .. min(up_to_level,
max_level)])` per-patch entries — equal to the input count exactly when
`up_to_level` is at least the maximum level (the default) and the input spans
the full hierarchy; with a truncating `up_to_level` the output is shorter
than the input, refuting the original "same number of entries for every value
of up_to_level".  Every produced entry keeps the shape of the corresponding
input patch, and the function is pure (it builds new arrays and never writes
to its arguments). -/
theorem C9_clean_field_shapes (field cr0amr solapst : List Arr3)
    (np : List ℕ) (u : ℕ) (h0 : np.getD 0 0 = 0) :
    ((tools_xyz.clean_field field cr0amr solapst np u).length
      = 1 + psum np (min u (maxLevel np) + 1)) ∧
    (maxLevel np ≤ u → field.length = 1 + (np.drop 1).sum →
      (tools_xyz.clean_field field cr0amr solapst np u).length = field.length) ∧
    (∀ ip, ip < (tools_xyz.clean_field field cr0amr solapst np u).length →
      ((tools_xyz.clean_field field cr0amr solapst np u).getD ip Arr3.empty).n1
          = (field.getD ip Arr3.empty).n1 ∧
      ((tools_xyz.clean_field field cr0amr solapst np u).getD ip Arr3.empty).n2
          = (field.getD ip Arr3.empty).n2 ∧
      ((tools_xyz.clean_field field cr0amr solapst np u).getD ip Arr3.empty).n3
          = (field.getD ip Arr3.empty).n3) := by
  refine ⟨clean_field_length field cr0amr solapst np u h0, ?_, ?_⟩
  · intro hu hf
    rw [clean_field_length field cr0amr solapst np u h0, hf]
    rw [min_eq_right hu, psum_maxLevel_total np h0]
  · intro ip hip
    rw [clean_field_length field cr0amr solapst np u h0] at hip
    rcases Nat.eq_zero_or_pos ip with rfl | hpos
    · rw [getD_of_get? (clean_field_get_zero field cr0amr solapst np u h0)]
      exact ⟨rfl, rfl, rfl⟩
    · by_cases hmid : ip ≤ psum np (min u (maxLevel np))
      · rw [getD_of_get? (clean_field_get_mid field cr0amr solapst np u ip h0 hpos hmid)]
        exact ⟨rfl, rfl, rfl⟩
      · have hb1 : psum np (min u (maxLevel np)) + 1 ≤ ip := by omega
        have hb2 : ip ≤ psum np (min u (maxLevel np) + 1) := by omega
        rw [getD_of_get? (clean_field_get_last field cr0amr solapst np u ip h0 hb1 hb2)]
        exact ⟨rfl, rfl, rfl⟩

/-- C9 counterexample: with `npatch = [0,1,1]` (one level-1 and one level-2
patch) and a truncating `up_to_level = 1`, `clean_field` returns 2 entries
for a 3-entry input field, refuting "the same number of per-patch entries as
the input field for every value of up_to_level". -/
theorem C9_counterexample :
    ¬ ((tools_xyz.clean_field [wArr 1, wArr 1, wArr 1] [wArr 1, wArr 1, wArr 1]
        [wArr 1, wArr 1, wArr 1] [0, 1, 1] 1).length
      = ([wArr 1, wArr 1, wArr 1] : List Arr3).length) := by
  decide

/-- C9 witness: the amended statement applied to `npatch = [0,1,1]` with the
non-truncating `up_to_level = 1000` (the Python default): the output length
equals the input length 3, and entry 2 keeps the input patch shape. -/
theorem C9_clean_field_shapes_witness :
    ((tools_xyz.clean_field [wArr 2, wArr 3, wArr 5] [wArr 1, wArr 0, wArr 1]
        [wArr 1, wArr 1, wArr 0] [0, 1, 1] 1000).length
      = ([wArr 2, wArr 3, wArr 5] : List Arr3).length) ∧
    ((tools_xyz.clean_field [wArr 2, wArr 3, wArr 5] [wArr 1, wArr 0, wArr 1]
        [wArr 1, wArr 1, wArr 0] [0, 1, 1] 1000).getD 2 Arr3.empty).n1
      = (([wArr 2, wArr 3, wArr 5] : List Arr3).getD 2 Arr3.empty).n1 := by
  have h := C9_clean_field_shapes [wArr 2, wArr 3, wArr 5] [wArr 1, wArr 0, wArr 1]
    [wArr 1, wArr 1, wArr 0] [0, 1, 1] 1000 (by decide)
  exact ⟨h.2.1 (by decide) (by decide), (h.2.2 2 (by decide)).1⟩

namespace tools

/-- Embedding of `tools.patch_vertices` (geometric form): the 8 corner
coordinates of a patch from its level, extents, first-cell centre `(rx, ry,
rz)`, box size and base-grid cell count, in the Python loop order
`i, j, k in {0,1}`. -/
def patch_vertices (level : ℕ) (nx ny nz : ℕ) (rx ry rz : ℚ) (size : ℚ)
    (nmax : ℕ) : List (ℚ × ℚ × ℚ) :=
  let cellsize := size / nmax / 2 ^ level
  let leftmost_x := rx - cellsize / 2
  let leftmost_y := ry - cellsize / 2
  let leftmost_z := rz - cellsize / 2
  (List.range 2).flatMap fun (i : ℕ) =>
    (List.range 2).flatMap fun (j : ℕ) =>
      (List.range 2).map fun (k : ℕ) =>
        (leftmost_x + (i : ℚ) * (nx : ℚ) * cellsize,
         leftmost_y + (j : ℚ) * (ny : ℚ) * cellsize,
         leftmost_z + (k : ℚ) * (nz : ℚ) * cellsize)

end tools

namespace tools_xyz

/-- Embedding of `tools_xyz.compute_position_field_onepatch`: the three
per-cell position arrays of one patch; cell `(i,j,k)` holds
`r - cellsize/2 + i*cellsize` along the matching axis (`r` is the centre of
the patch's first parent-level cell, so `r - cellsize/2` is the centre of its
first own-level cell). -/
def compute_position_field_onepatch (nx ny nz : ℕ) (rx ry rz : ℚ) (level : ℕ)
    (size : ℚ) (nmax : ℕ) : Arr3 × Arr3 × Arr3 :=
  let cellsize := size / nmax / 2 ^ level
  let first_x := rx - cellsize / 2
  let first_y := ry - cellsize / 2
  let first_z := rz - cellsize / 2
  (⟨nx, ny, nz, fun i _ _ => first_x + (i : ℚ) * cellsize⟩,
   ⟨nx, ny, nz, fun _ j _ => first_y + (j : ℚ) * cellsize⟩,
   ⟨nx, ny, nz, fun _ _ k => first_z + (k : ℚ) * cellsize⟩)

/-- Embedding of `tools_xyz.patch_vertices` (field-derived form): reads the
cell size as `cellsrx[ipatch][1,0,0] - cellsrx[ipatch][0,0,0]` and the patch
extents from the shape of `cellsrx[ipatch]`; every array read is
bounds-checked (`none` models the numpy `IndexError`). -/
def patch_vertices (ipatch : ℕ) (cellsrx cellsry cellsrz : List Arr3) :
    Option (List (ℚ × ℚ × ℚ)) := do
  let ax ← cellsrx.get? ipatch
  let ay ← cellsry.get? ipatch
  let az ← cellsrz.get? ipatch
  let x100 ← ax.get 1 0 0
  let x000 ← ax.get 0 0 0
  let cellsize := x100 - x000
  let y000 ← ay.get 0 0 0
  let z000 ← az.get 0 0 0
  let leftmost_x := x000 - cellsize / 2
  let leftmost_y := y000 - cellsize / 2
  let leftmost_z := z000 - cellsize / 2
  some ((List.range 2).flatMap fun (i : ℕ) =>
    (List.range 2).flatMap fun (j : ℕ) =>
      (List.range 2).map fun (k : ℕ) =>
        (leftmost_x + (i : ℚ) * (ax.n1 : ℚ) * cellsize,
         leftmost_y + (j : ℚ) * (ax.n2 : ℚ) * cellsize,
         leftmost_z + (k : ℚ) * (ax.n3 : ℚ) * cellsize))

end tools_xyz

/-- C3: for a patch with `nx ≥ 2` whose position fields were produced by
`compute_position_field_onepatch`, the field-derived `patch_vertices` returns
exactly the 8 vertices computed by the geometric `patch_vertices` called with
the same level, extents, box size and base-grid count, and with the centre of
the patch's first own-level cell (the `(0,0,0)` entry of the position
fields) as `(rx, ry, rz)`; in `ℚ` the agreement is exact. -/
theorem C3_patch_vertices_agreement (level nx ny nz : ℕ) (rx ry rz size : ℚ)
    (nmax : ℕ) (hnx : 2 ≤ nx) (hny : 1 ≤ ny) (hnz : 1 ≤ nz) :
    tools_xyz.patch_vertices 0
        [(tools_xyz.compute_position_field_onepatch nx ny nz rx ry rz level size nmax).1]
        [(tools_xyz.compute_position_field_onepatch nx ny nz rx ry rz level size nmax).2.1]
        [(tools_xyz.compute_position_field_onepatch nx ny nz rx ry rz level size nmax).2.2]
      = some (tools.patch_vertices level nx ny nz
          ((tools_xyz.compute_position_field_onepatch nx ny nz rx ry rz level size nmax).1.data 0 0 0)
          ((tools_xyz.compute_position_field_onepatch nx ny nz rx ry rz level size nmax).2.1.data 0 0 0)
          ((tools_xyz.compute_position_field_onepatch nx ny nz rx ry rz level size nmax).2.2.data 0 0 0)
          size nmax) := by
  have h1x : 1 < nx := by omega
  have h0x : 0 < nx := by omega
  have h0y : 0 < ny := hny
  have h0z : 0 < nz := hnz
  simp only [tools_xyz.patch_vertices, tools_xyz.compute_position_field_onepatch,
    tools.patch_vertices, Arr3.get, List.get?_cons_zero, Option.some_bind]
  norm_num [h0x, h1x, h0y, h0z]

/-- C3 witness: the agreement applied to the concrete patch `nx = 2`,
`ny = nz = 1`, `rx = ry = rz = 3`, level 1, `size = 10`, `nmax = 10`. -/
theorem C3_patch_vertices_agreement_witness :
    tools_xyz.patch_vertices 0
        [(tools_xyz.compute_position_field_onepatch 2 1 1 3 3 3 1 10 10).1]
        [(tools_xyz.compute_position_field_onepatch 2 1 1 3 3 3 1 10 10).2.1]
        [(tools_xyz.compute_position_field_onepatch 2 1 1 3 3 3 1 10 10).2.2]
      = some (tools.patch_vertices 1 2 1 1
          ((tools_xyz.compute_position_field_onepatch 2 1 1 3 3 3 1 10 10).1.data 0 0 0)
          ((tools_xyz.compute_position_field_onepatch 2 1 1 3 3 3 1 10 10).2.1.data 0 0 0)
          ((tools_xyz.compute_position_field_onepatch 2 1 1 3 3 3 1 10 10).2.2.data 0 0 0)
          10 10) :=
  C3_patch_vertices_agreement 1 2 1 1 3 3 3 10 10 (by decide) (by decide) (by decide)

/-- C10: the field-derived `patch_vertices` reads
`cellsrx[ipatch][1,0,0] - cellsrx[ipatch][0,0,0]` for the cell size, so on a
patch of x-extent 1 the read `[1,0,0]` is out of bounds and the call fails
(numpy `IndexError`, `none` in the model), for every `ny, nz` and every
geometry — even though the geometric `patch_vertices` still returns all 8
vertices for such a patch. -/
theorem C10_patch_vertices_nx1_fails (ny nz level : ℕ) (rx ry rz size : ℚ)
    (nmax : ℕ) :
    (tools_xyz.patch_vertices 0
        [(tools_xyz.compute_position_field_onepatch 1 ny nz rx ry rz level size nmax).1]
        [(tools_xyz.compute_position_field_onepatch 1 ny nz rx ry rz level size nmax).2.1]
        [(tools_xyz.compute_position_field_onepatch 1 ny nz rx ry rz level size nmax).2.2]
      = none) ∧
    (tools.patch_vertices level 1 ny nz rx ry rz size nmax).length = 8 := by
  constructor
  · simp [tools_xyz.patch_vertices, tools_xyz.compute_position_field_onepatch, Arr3.get]
  · simp [tools.patch_vertices, List.range_succ]

namespace tools_xyz

/-- Embedding of `tools_xyz.mask_sphere`: per-patch boolean field, true for a
cell iff the squared distance of its centre from `(clusrx, clusry, clusrz)`
is strictly below `R ** 2`; built per patch by zipping the three position
fields (Python's `zip` truncates at the shortest input, as does `zip3With`). -/
def mask_sphere (R clusrx clusry clusrz : ℚ)
    (cellsrx cellsry cellsrz : List Arr3) : List BArr3 :=
  zip3With (fun cx cy cz =>
    ⟨cx.n1, cx.n2, cx.n3, fun i j k =>
      decide ((cx.data i j k - clusrx) ^ 2 + (cy.data i j k - clusry) ^ 2
        + (cz.data i j k - clusrz) ^ 2 < R ^ 2)⟩)
    cellsrx cellsry cellsrz

end tools_xyz

theorem zip3With_get? {α β γ δ : Type*} (f : α → β → γ → δ) :
    ∀ (as : List α) (bs : List β) (cs : List γ) (i : ℕ) a b c,
      as.get? i = some a → bs.get? i = some b → cs.get? i = some c →
      (zip3With f as bs cs).get? i = some (f a b c) := by
  intro as
  induction as with
  | nil => intro bs cs i a b c ha; simp at ha
  | cons x xs ih =>
    intro bs cs i a b c ha hb hc
    cases bs with
    | nil => simp at hb
    | cons y ys =>
      cases cs with
      | nil => simp at hc
      | cons z zs =>
        cases i with
        | zero =>
          simp only [List.get?_cons_zero, Option.some.injEq] at ha hb hc
          subst ha; subst hb; subst hc
          rfl
        | succ i =>
          simp only [List.get?_cons_succ] at ha hb hc
          exact ih ys zs i a b c ha hb hc

/-- C6 (amended): a `mask_sphere` cell is true iff its squared distance from
the centre is strictly below `R^2`; with `R = 0` every patch with no cell
exactly at the centre gets an all-false mask; and for `0 ≤ R1 ≤ R2` every
cell selected at radius `R1` is selected at radius `R2` (the original
unrestricted "for all R1 ≤ R2" fails for negative radii, since the code
squares `R`). -/
theorem C6_mask_sphere_cells (R clusrx clusry clusrz : ℚ)
    (cellsrx cellsry cellsrz : List Arr3) :
    (∀ ip ax ay az, cellsrx.get? ip = some ax → cellsry.get? ip = some ay →
      cellsrz.get? ip = some az → ∀ i j k,
      (((tools_xyz.mask_sphere R clusrx clusry clusrz cellsrx cellsry
          cellsrz).getD ip BArr3.empty).data i j k = true
        ↔ (ax.data i j k - clusrx) ^ 2 + (ay.data i j k - clusry) ^ 2
            + (az.data i j k - clusrz) ^ 2 < R ^ 2)) ∧
    (∀ ip ax ay az, cellsrx.get? ip = some ax → cellsry.get? ip = some ay →
      cellsrz.get? ip = some az →
      (∀ i j k, ¬ (ax.data i j k = clusrx ∧ ay.data i j k = clusry
        ∧ az.data i j k = clusrz)) → ∀ i j k,
      ((tools_xyz.mask_sphere 0 clusrx clusry clusrz cellsrx cellsry
          cellsrz).getD ip BArr3.empty).data i j k = false) ∧
    (∀ R1 R2 : ℚ, 0 ≤ R1 → R1 ≤ R2 →
      ∀ ip ax ay az, cellsrx.get? ip = some ax → cellsry.get? ip = some ay →
      cellsrz.get? ip = some az → ∀ i j k,
      ((tools_xyz.mask_sphere R1 clusrx clusry clusrz cellsrx cellsry
          cellsrz).getD ip BArr3.empty).data i j k = true →
      ((tools_xyz.mask_sphere R2 clusrx clusry clusrz cellsrx cellsry
          cellsrz).getD ip BArr3.empty).data i j k = true) := by
  refine ⟨?_, ?_, ?_⟩
  · intro ip ax ay az hx hy hz i j k
    unfold tools_xyz.mask_sphere
    rw [getD_of_get? (zip3With_get? _ cellsrx cellsry cellsrz ip ax ay az hx hy hz)]
    simp
  · intro ip ax ay az hx hy hz _ i j k
    unfold tools_xyz.mask_sphere
    rw [getD_of_get? (zip3With_get? _ cellsrx cellsry cellsrz ip ax ay az hx hy hz)]
    simp only [decide_eq_false_iff_not, not_lt]
    have h2 : (0 : ℚ) ≤ (ax.data i j k - clusrx) ^ 2 + (ay.data i j k - clusry) ^ 2
        + (az.data i j k - clusrz) ^ 2 := by positivity
    calc ((0 : ℚ)) ^ 2 = 0 := by norm_num
    _ ≤ _ := h2
  · intro R1 R2 h0 h12 ip ax ay az hx hy hz i j k
    unfold tools_xyz.mask_sphere
    rw [getD_of_get? (zip3With_get? _ cellsrx cellsry cellsrz ip ax ay az hx hy hz),
      getD_of_get? (zip3With_get? _ cellsrx cellsry cellsrz ip ax ay az hx hy hz)]
    simp only [decide_eq_true_eq]
    intro h
    have hsq : R1 ^ 2 ≤ R2 ^ 2 := by
      apply pow_le_pow_left h0 h12
    linarith

/-- C6 counterexample: with a single cell at distance 2 from the centre,
`R1 = -3 ≤ R2 = 1` selects the cell at the smaller radius (the code compares
against `R^2 = 9`) but not at the larger one (`R^2 = 1`): unrestricted
monotonic set growth in `R1 ≤ R2` is false for negative radii. -/
theorem C6_counterexample :
    (-3 : ℚ) ≤ 1 ∧
    ((tools_xyz.mask_sphere (-3) 0 0 0 [wArr 2] [wArr 0] [wArr 0]).getD 0
      BArr3.empty).data 0 0 0 = true ∧
    ((tools_xyz.mask_sphere 1 0 0 0 [wArr 2] [wArr 0] [wArr 0]).getD 0
      BArr3.empty).data 0 0 0 = false := by
  refine ⟨by norm_num, ?_, ?_⟩ <;>
    norm_num [tools_xyz.mask_sphere, zip3With, wArr]

/-- C6 witness: the amended statement applied to one cell at distance 2 from
the origin: the cell is selected at radius 3 (per the distance criterion),
an all-false mask at radius 0, and selection is kept when the radius grows
from 3 to 4. -/
theorem C6_mask_sphere_cells_witness :
    ((tools_xyz.mask_sphere 3 0 0 0 [wArr 2] [wArr 0] [wArr 0]).getD 0
      BArr3.empty).data 0 0 0 = true ∧
    ((tools_xyz.mask_sphere 0 0 0 0 [wArr 2] [wArr 0] [wArr 0]).getD 0
      BArr3.empty).data 0 0 0 = false ∧
    ((tools_xyz.mask_sphere 4 0 0 0 [wArr 2] [wArr 0] [wArr 0]).getD 0
      BArr3.empty).data 0 0 0 = true := by
  have h := C6_mask_sphere_cells 3 0 0 0 [wArr 2] [wArr 0] [wArr 0]
  have h1 : ((tools_xyz.mask_sphere 3 0 0 0 [wArr 2] [wArr 0] [wArr 0]).getD 0
      BArr3.empty).data 0 0 0 = true :=
    (h.1 0 (wArr 2) (wArr 0) (wArr 0) rfl rfl rfl 0 0 0).mpr (by norm_num [wArr])
  refine ⟨h1, ?_, ?_⟩
  · exact h.2.1 0 (wArr 2) (wArr 0) (wArr 0) rfl rfl rfl
      (fun i j k hc => by simp [wArr] at hc) 0 0 0
  · exact h.2.2 3 4 (by norm_num) (by norm_num) 0 (wArr 2) (wArr 0) (wArr 0)
      rfl rfl rfl 0 0 0 h1

namespace tools_xyz

/-- Embedding of `tools_xyz.mass_inside`: per-patch cell volume
`(size/nmax/2^level)^3`, spherical mask, and the sum over all patches of
`density * mask * volume` (Python's `zip` truncates at the shortest input,
as does `zip3With`). -/
def mass_inside (R clusrx clusry clusrz : ℚ) (density : List Arr3)
    (cellsrx cellsry cellsrz : List Arr3) (npatch : List ℕ) (size : ℚ)
    (nmax : ℕ) : ℚ :=
  let levels := tools.create_vector_levels npatch
  let cells_volume := levels.map fun l => (size / nmax / 2 ^ l) ^ 3
  let mask := mask_sphere R clusrx clusry clusrz cellsrx cellsry cellsrz
  let cellmasses := zip3With (fun d m cv => (d.mulMask m).smul cv)
    density mask cells_volume
  (cellmasses.map Arr3.sum).sum

/-- Rational stand-in for the float constant `numpy.pi`
(3.141592653589793); the claims settled here do not depend on its value,
only on its sign entering products. -/
def np_pi : ℚ := 3.141592653589793

/-- Embedding of `tools_xyz.find_rDelta_eqn`:
`g(r) = mass_inside(r, ...) - (4*pi/3) * r^3 * background_density * Delta`
(the `verbose` print is dropped). -/
def find_rDelta_eqn (r Delta background_density clusrx clusry clusrz : ℚ)
    (density cellsrx cellsry cellsrz : List Arr3) (npatch : List ℕ)
    (size : ℚ) (nmax : ℕ) : ℚ :=
  mass_inside r clusrx clusry clusrz density cellsrx cellsry cellsrz npatch
      size nmax
    - 4 * np_pi / 3 * r ^ 3 * background_density * Delta

/-- Modelled from the spec: `scipy.optimize.brentq` is external library code
(not in this repository).  Per the spec's RadiusSolver contract it is a
bracketed root-finder whose precondition is that the function values at the
two endpoints have opposite signs; it raises `ValueError` (modelled as
`Except.error`) when `f(a) * f(b) > 0`, and otherwise converges to a root,
modelled abstractly by the `root` parameter. -/
def brentq (root : ℚ) (f : ℚ → ℚ) (a b : ℚ) : Except Unit ℚ :=
  if 0 < f a * f b then Except.error () else Except.ok root

/-- Embedding of `tools_xyz.find_rDelta` over the modelled root-finder.  The
background density is the externally supplied cosmology function
(`cosmo_tools.background_density` is outside this repository's core and is
modelled from the spec as the parameter `bg`); the `try/except ValueError`
returning `float('nan')` is modelled by `Option`, `none` being the NaN
sentinel.  The tolerance `rtol` only affects the root's accuracy and is
absorbed into the abstract `root`. -/
def find_rDelta (root : ℚ) (bg : ℚ → ℚ → ℚ → ℚ)
    (Delta zeta clusrx clusry clusrz : ℚ)
    (density cellsrx cellsry cellsrz : List Arr3) (npatch : List ℕ)
    (size : ℚ) (nmax : ℕ) (hh omega_m rmin rmax : ℚ) : Option ℚ :=
  let background_density := bg hh omega_m zeta
  match brentq root (fun r => find_rDelta_eqn r Delta background_density
      clusrx clusry clusrz density cellsrx cellsry cellsrz npatch size nmax)
      rmin rmax with
  | Except.ok r => some r
  | Except.error _ => none

end tools_xyz

/-- C5: when `g(r) = mass_inside(r,...) - (4*pi/3) r^3 rho_b Delta` has the
same strict sign at `rmin` and `rmax` (the bracketing precondition fails,
i.e. `g(rmin) * g(rmax) > 0`), `find_rDelta` returns the NaN sentinel
(`none`) instead of propagating the root-finder's exception; when the
precondition holds, the root-finder's result is returned unchanged. -/
theorem C5_find_rDelta_nan (root : ℚ) (bg : ℚ → ℚ → ℚ → ℚ)
    (Delta zeta clusrx clusry clusrz : ℚ)
    (density cellsrx cellsry cellsrz : List Arr3) (npatch : List ℕ)
    (size : ℚ) (nmax : ℕ) (hh omega_m rmin rmax : ℚ) :
    (0 < tools_xyz.find_rDelta_eqn rmin Delta (bg hh omega_m zeta) clusrx clusry
        clusrz density cellsrx cellsry cellsrz npatch size nmax
      * tools_xyz.find_rDelta_eqn rmax Delta (bg hh omega_m zeta) clusrx clusry
        clusrz density cellsrx cellsry cellsrz npatch size nmax →
      tools_xyz.find_rDelta root bg Delta zeta clusrx clusry clusrz density
        cellsrx cellsry cellsrz npatch size nmax hh omega_m rmin rmax = none) ∧
    (¬ (0 < tools_xyz.find_rDelta_eqn rmin Delta (bg hh omega_m zeta) clusrx clusry
        clusrz density cellsrx cellsry cellsrz npatch size nmax
      * tools_xyz.find_rDelta_eqn rmax Delta (bg hh omega_m zeta) clusrx clusry
        clusrz density cellsrx cellsry cellsrz npatch size nmax) →
      tools_xyz.find_rDelta root bg Delta zeta clusrx clusry clusrz density
        cellsrx cellsry cellsrz npatch size nmax hh omega_m rmin rmax
        = some root) := by
  constructor
  · intro hpos
    rw [tools_xyz.find_rDelta, tools_xyz.brentq, if_pos hpos]
  · intro hneg
    rw [tools_xyz.find_rDelta, tools_xyz.brentq, if_neg hneg]

theorem mass_inside_nil (R clusrx clusry clusrz : ℚ)
    (cellsrx cellsry cellsrz : List Arr3) (npatch : List ℕ) (size : ℚ)
    (nmax : ℕ) :
    tools_xyz.mass_inside R clusrx clusry clusrz [] cellsrx cellsry cellsrz
      npatch size nmax = 0 := by
  rw [tools_xyz.mass_inside]
  rfl

/-- C5 witness: with an empty density field the enclosed mass is 0, so with
`rho_b = Delta = 1` the bracket function is strictly negative at both
endpoints 1 and 2 and `find_rDelta` yields the NaN sentinel; with `rho_b = 0`
the bracket function vanishes at both endpoints, the precondition holds and
the root-finder's result 3/2 is passed through. -/
theorem C5_find_rDelta_nan_witness :
    (tools_xyz.find_rDelta (3 / 2) (fun _ _ _ => 1) 1 0 0 0 0 [] [] [] []
      [] 1 1 1 1 1 2 = none) ∧
    (tools_xyz.find_rDelta (3 / 2) (fun _ _ _ => 0) 1 0 0 0 0 [] [] [] []
      [] 1 1 1 1 1 2 = some (3 / 2)) := by
  constructor
  · apply (C5_find_rDelta_nan (3 / 2) (fun _ _ _ => 1) 1 0 0 0 0 [] [] [] []
      [] 1 1 1 1 1 2).1
    rw [tools_xyz.find_rDelta_eqn, tools_xyz.find_rDelta_eqn,
      mass_inside_nil, mass_inside_nil]
    rw [tools_xyz.np_pi]
    norm_num
  · apply (C5_find_rDelta_nan (3 / 2) (fun _ _ _ => 0) 1 0 0 0 0 [] [] [] []
      [] 1 1 1 1 1 2).2
    rw [tools_xyz.find_rDelta_eqn, tools_xyz.find_rDelta_eqn,
      mass_inside_nil, mass_inside_nil]
    norm_num

/-- Embedding of `numpy.linspace(a, b, num)` with the default inclusive
endpoint: `num` evenly spaced values `a + i*(b-a)/(num-1)`; exact in `ℚ`
(for `num = 1` numpy returns `[a]`, matched here since division by zero is
zero in `ℚ`). -/
def linspace (a b : ℚ) (num : ℕ) : List ℚ :=
  (List.range num).map fun (i : ℕ) => a + (i : ℚ) * ((b - a) / ((num : ℚ) - 1))

namespace tools_xyz

/-- Embedding of `tools_xyz.radial_profile_vw`.  The two assertion guards
print and `return None` (modelled by `none`).  `numpy.logspace` applies
`10^x` to a linspace of `log10` values; those transcendental float
functions have no exact rational counterpart and are abstracted as the
parameters `lg` (for `log10`) and `pw` (for `10^x`); everything else follows
the source.  (`ℚ` division by a zero shell volume yields 0 where the float
code yields NaN; the settled claims do not touch the profile values.) -/
def radial_profile_vw (lg pw : ℚ → ℚ) (field : List Arr3)
    (clusrx clusry clusrz rmin rmax : ℚ) (nbins : ℕ) (logbins : Bool)
    (cellsrx cellsry cellsrz : List Arr3) (npatch : List ℕ) (size : ℚ)
    (nmax : ℕ) : Option (List ℚ × List ℚ) :=
  if ¬ (rmin < rmax) then none
  else if logbins ∧ ¬ (0 < rmin) then none
  else
    let bin_bounds := if logbins
      then (linspace (lg rmin) (lg rmax) (nbins + 1)).map pw
      else linspace rmin rmax (nbins + 1)
    let bin_centers := List.zipWith (fun u v => (u + v) / 2)
      (bin_bounds.drop 1) bin_bounds.dropLast
    let levels := tools.create_vector_levels npatch
    let cell_volume := levels.map fun l => (size / nmax / 2 ^ l) ^ 3
    let field_vw := List.zipWith Arr3.smul field cell_volume
    let cells_outer0 := if 0 < rmin
      then mask_sphere rmin clusrx clusry clusrz cellsrx cellsry cellsrz
      else field.map BArr3.zerosLike
    let step := fun (st : List BArr3 × List ℚ) (r_out : ℚ) =>
      let cells_outer := mask_sphere r_out clusrx clusry clusrz cellsrx
        cellsry cellsrz
      let shell_mask := List.zipWith BArr3.xor st.1 cells_outer
      let sum_field_vw := ((List.zipWith Arr3.mulMask field_vw
        shell_mask).map Arr3.sum).sum
      let sum_vw := ((List.zipWith BArr3.smul shell_mask
        cell_volume).map Arr3.sum).sum
      (cells_outer, st.2 ++ [sum_field_vw / sum_vw])
    some (bin_centers, ((bin_bounds.drop 1).foldl step (cells_outer0, [])).2)

end tools_xyz

theorem linspace_length (a b : ℚ) (num : ℕ) : (linspace a b num).length = num := by
  rw [linspace, List.length_map, List.length_range]

/-- C8 (amended): `radial_profile_vw` reports an explicit failure (`None`,
with no profile computation) whenever `rmax ≤ rmin`, and whenever logarithmic
binning is requested with `rmin ≤ 0` (the original claim's `rmin == 0` is
too narrow: the assertion `rmin > 0` also fails for negative `rmin`); for
valid inputs it builds `nbins + 1` bin boundaries — `linspace(rmin, rmax,
nbins+1)` for linear binning, `10^x` over `linspace(log10 rmin, log10 rmax,
nbins+1)` for logarithmic — and returns bin centres that are the arithmetic
means of adjacent boundaries. -/
theorem C8_radial_profile_vw_binning (lg pw : ℚ → ℚ) (field : List Arr3)
    (clusrx clusry clusrz rmin rmax : ℚ) (nbins : ℕ) (logbins : Bool)
    (cellsrx cellsry cellsrz : List Arr3) (npatch : List ℕ) (size : ℚ)
    (nmax : ℕ) :
    (rmax ≤ rmin →
      tools_xyz.radial_profile_vw lg pw field clusrx clusry clusrz rmin rmax
        nbins logbins cellsrx cellsry cellsrz npatch size nmax = none) ∧
    (logbins = true → rmin ≤ 0 →
      tools_xyz.radial_profile_vw lg pw field clusrx clusry clusrz rmin rmax
        nbins logbins cellsrx cellsry cellsrz npatch size nmax = none) ∧
    (rmin < rmax → (logbins = true → 0 < rmin) →
      (∃ profile,
        tools_xyz.radial_profile_vw lg pw field clusrx clusry clusrz rmin rmax
          nbins logbins cellsrx cellsry cellsrz npatch size nmax
        = some (List.zipWith (fun u v => (u + v) / 2)
            ((if logbins then (linspace (lg rmin) (lg rmax) (nbins + 1)).map pw
              else linspace rmin rmax (nbins + 1)).drop 1)
            (if logbins then (linspace (lg rmin) (lg rmax) (nbins + 1)).map pw
              else linspace rmin rmax (nbins + 1)).dropLast, profile)) ∧
      (if logbins then (linspace (lg rmin) (lg rmax) (nbins + 1)).map pw
        else linspace rmin rmax (nbins + 1)).length = nbins + 1) := by
  refine ⟨?_, ?_, ?_⟩
  · intro hle
    rw [tools_xyz.radial_profile_vw, if_pos (by exact fun hlt => absurd hlt (not_lt.2 hle))]
  · intro hlog hle
    rw [tools_xyz.radial_profile_vw]
    by_cases hlt : rmin < rmax
    · rw [if_neg (by simpa using hlt), if_pos ⟨hlog, not_lt.2 hle⟩]
    · rw [if_pos hlt]
  · intro hlt hpos
    constructor
    · rw [tools_xyz.radial_profile_vw, if_neg (by simpa using hlt),
        if_neg (by rintro ⟨hlog, hnot⟩; exact hnot (hpos hlog))]
      exact ⟨_, rfl⟩
    · cases logbins
      · simp [linspace_length]
      · simp [linspace_length]

/-- C8 counterexample: logarithmic binning with `rmin = -1 < rmax = 1` is
"valid" under the original claim's failure list (`rmax > rmin` and
`rmin ≠ 0`), yet the code's `assert rmin > 0` fails and `None` is returned
with no bins built. -/
theorem C8_counterexample :
    ((-1 : ℚ) < 1) ∧ ¬ ((-1 : ℚ) = 0) ∧
    tools_xyz.radial_profile_vw id id [] 0 0 0 (-1) 1 1 true [] [] [] [] 1 1
      = none := by
  refine ⟨by norm_num, by norm_num, ?_⟩
  rw [tools_xyz.radial_profile_vw, if_neg (by norm_num), if_pos (by norm_num)]

/-- C8 witness: the amended statement applied at concrete inputs: linear
binning with `rmin = 2 ≥ rmax = 1` fails, logarithmic binning with
`rmin = -1` fails, and a valid linear call with `rmin = 1 < rmax = 2`,
`nbins = 2` produces a result. -/
theorem C8_radial_profile_vw_binning_witness :
    (tools_xyz.radial_profile_vw id id [] 0 0 0 2 1 1 false [] [] [] [] 1 1
      = none) ∧
    (tools_xyz.radial_profile_vw id id [] 0 0 0 (-1) 1 1 true [] [] [] [] 1 1
      = none) ∧
    (tools_xyz.radial_profile_vw id id [] 0 0 0 1 2 2 false [] [] [] [] 1 1).isSome
      = true := by
  refine ⟨(C8_radial_profile_vw_binning id id [] 0 0 0 2 1 1 false [] [] [] []
      1 1).1 (by norm_num),
    (C8_radial_profile_vw_binning id id [] 0 0 0 (-1) 1 1 true [] [] [] []
      1 1).2.1 rfl (by norm_num), ?_⟩
  obtain ⟨⟨profile, hp⟩, _⟩ := (C8_radial_profile_vw_binning id id [] 0 0 0 1 2 2
    false [] [] [] [] 1 1).2.2 (by norm_num) (fun hc => by exact absurd hc (by simp))
  rw [hp]
  rfl
